import Mathlib

/-!
Shallow embedding of `fe::copy_on_write_vector` (ferrum).

The C++ container holds a `std::shared_ptr<std::vector<T>>` named
`_shared_container`.  Every mutator takes the mutex, builds a new vector
(usually a copy of the current one), mutates that new vector, and publishes it
by overwriting `_shared_container`; a published vector object is never written
again.  A `snapshot` (returned by `lock()`) stores the `shared_ptr` that was
current at acquisition time and reads only through it.

We model the shared-pointer graph explicitly: a `Buffer` is one
`std::vector` object (its element list plus its capacity); the state of a
container is the list of all vector objects it has ever allocated (`heap`; a
buffer's index in this list is its identity, playing the role of its address)
together with the index of the buffer currently held by `_shared_container`
(`current`).  Publishing a freshly built vector appends it to `heap`
(`alloc`); a mutator that returns without publishing leaves the state
untouched, keeping the same buffer identity.  A snapshot is the buffer index
captured at `lock()` time.

The capacity of a freshly copy-constructed vector is implementation-defined
in C++ (only `capacity ≥ size` is guaranteed); we model it as exactly the
size (`mkCopy`).  No claim below depends on the capacity of plain copies;
`clear` sets its capacity explicitly through `reserve`, which we model
faithfully (`reserve` never shrinks, so on a fresh capacity-0 vector it yields
exactly the requested capacity).

Operations whose C++ is undefined behaviour for some inputs (the index-based
mutators, which compute `begin() + index` or `operator[](index)` without any
bounds check, and `pop_back` on an empty vector) return `Option`; `none`
marks exactly the inputs on which the C++ has no defined result.
-/

/-- One `std::vector` object: element sequence and allocated capacity. -/
structure Buffer (α : Type) where
  elems : List α
  cap : Nat
deriving DecidableEq

/-- A `fe::copy_on_write_vector`: all vector objects it ever allocated
(`heap`, indices are identities) and the index of the one currently held by
`_shared_container`. -/
structure copy_on_write_vector (α : Type) where
  heap : List (Buffer α)
  current : Nat
deriving DecidableEq

namespace copy_on_write_vector

variable {α : Type}

/-- The vector object `_shared_container` currently points to. -/
def buf (st : copy_on_write_vector α) : Buffer α :=
  st.heap.getD st.current ⟨[], 0⟩

/-- The element sequence of the current buffer. -/
def elems (st : copy_on_write_vector α) : List α :=
  (buf st).elems

/-- `size()`: length of the current element sequence. -/
def size (st : copy_on_write_vector α) : Nat :=
  (elems st).length

/-- A freshly copy-constructed vector holding `l` (capacity modeled as the
size, see the header comment). -/
def mkCopy (l : List α) : Buffer α :=
  ⟨l, l.length⟩

/-- Publish a freshly built vector object: it gets the next identity and
becomes current. -/
def alloc (st : copy_on_write_vector α) (b : Buffer α) : copy_on_write_vector α :=
  ⟨st.heap ++ [b], st.heap.length⟩

/-- `lock()`: a snapshot stores the `shared_ptr` current at acquisition; we
record the captured buffer's identity. -/
def lock (st : copy_on_write_vector α) : Nat :=
  st.current

/-- What a snapshot that captured buffer identity `sid` observes: the vector
object at that identity. -/
def snapObs (st : copy_on_write_vector α) (sid : Nat) : Option (Buffer α) :=
  st.heap[sid]?

/-- `snapshot::at(n)`: bounds-checked read on the captured buffer via
`std::vector::at`; `none` models the thrown `std::out_of_range`.  The method
is `const`: it never changes any state. -/
def snapshotAt (b : Buffer α) (n : Nat) : Option α :=
  b.elems[n]?

/-- Container `at(n)`: delegates to `lock().at(n)`, i.e. a bounds-checked
read of the current buffer. -/
def at_idx (st : copy_on_write_vector α) (n : Nat) : Option α :=
  snapshotAt (buf st) n

/-- `assign(list)`: copy the current vector, `assign` the new contents to the
copy, publish. -/
def assign (st : copy_on_write_vector α) (l : List α) : copy_on_write_vector α :=
  alloc st (mkCopy l)

/-- `clear()`: build a fresh empty vector, `reserve` the old buffer's capacity
in it, publish.  On the fresh capacity-0 vector, `reserve c` yields capacity
`max 0 c`. -/
def clear (st : copy_on_write_vector α) : copy_on_write_vector α :=
  alloc st ⟨[], max 0 (buf st).cap⟩

/-- `push_back(value)`: copy, append, publish. -/
def push_back (st : copy_on_write_vector α) (v : α) : copy_on_write_vector α :=
  alloc st (mkCopy (elems st ++ [v]))

/-- `pop_back()`: copy, `pop_back` on the copy, publish.  `pop_back` on an
empty vector is undefined behaviour (`none`). -/
def pop_back (st : copy_on_write_vector α) : Option (copy_on_write_vector α) :=
  if (elems st).isEmpty then none
  else some (alloc st (mkCopy (elems st).dropLast))

/-- `sort()`: copy, `std::sort` ascending on the copy, publish. -/
def sort [LinearOrder α] (st : copy_on_write_vector α) : copy_on_write_vector α :=
  alloc st (mkCopy ((elems st).insertionSort (· ≤ ·)))

/-- `insert_at(index, value)`: copy, `insert(begin() + index, value)` on the
copy, publish.  The code performs no bounds check; `begin() + index` with
`index > size()` is undefined behaviour (`none`). -/
def insert_at (st : copy_on_write_vector α) (index : Nat) (v : α) :
    Option (copy_on_write_vector α) :=
  if index ≤ size st then
    some (alloc st (mkCopy ((elems st).take index ++ v :: (elems st).drop index)))
  else none

/-- `erase_at(index)`: copy, `erase(begin() + index)` on the copy, publish.
No bounds check; `index ≥ size()` is undefined behaviour (`none`). -/
def erase_at (st : copy_on_write_vector α) (index : Nat) :
    Option (copy_on_write_vector α) :=
  if index < size st then
    some (alloc st (mkCopy ((elems st).take index ++ (elems st).drop (index + 1))))
  else none

/-- `replace_at(index, value)`: copy, `(*copy)[index] = value`, publish.
`operator[]` performs no bounds check; `index ≥ size()` is undefined
behaviour (`none`). -/
def replace_at (st : copy_on_write_vector α) (index : Nat) (v : α) :
    Option (copy_on_write_vector α) :=
  if index < size st then
    some (alloc st (mkCopy ((elems st).set index v)))
  else none

/-- `erase_range(first, last)`: copy, `erase(begin() + first, begin() + last)`
on the copy, publish.  An invalid range (`first > last` or `last > size()`)
is undefined behaviour (`none`). -/
def erase_range (st : copy_on_write_vector α) (first last : Nat) :
    Option (copy_on_write_vector α) :=
  if first ≤ last ∧ last ≤ size st then
    some (alloc st (mkCopy ((elems st).take first ++ (elems st).drop last)))
  else none

/-- `erase(value)`: `std::find` on the *current* buffer first; on a miss
return `false` without copying or publishing anything; on a hit copy, erase
the found position in the copy, publish, return `true`. -/
def erase [DecidableEq α] (st : copy_on_write_vector α) (v : α) :
    copy_on_write_vector α × Bool :=
  if v ∈ elems st then (alloc st (mkCopy ((elems st).erase v)), true)
  else (st, false)

/-- Erase the first element satisfying `p` (the effect of `find_if` followed
by `erase` at the found position). -/
def eraseFirstIf (p : α → Bool) : List α → List α
  | [] => []
  | x :: xs => if p x then xs else x :: eraseFirstIf p xs

/-- `erase_if(pred)`: `std::find_if` on the current buffer first; on a miss
return `false` without copying; on a hit copy, erase the found position,
publish, return `true`.  Only the FIRST matching element is erased. -/
def erase_if (st : copy_on_write_vector α) (p : α → Bool) :
    copy_on_write_vector α × Bool :=
  if (elems st).any p then (alloc st (mkCopy (eraseFirstIf p (elems st))), true)
  else (st, false)

/-- `erase_all(value)`: copy the current vector unconditionally, then
`std::remove` + `erase` every element equal to `value` on the copy, publish;
returns the number removed.  The copy is made even when nothing matches. -/
def erase_all [DecidableEq α] (st : copy_on_write_vector α) (v : α) :
    copy_on_write_vector α × Nat :=
  (alloc st (mkCopy ((elems st).filter (fun x => decide (x ≠ v)))),
   (elems st).countP (fun x => decide (x = v)))

/-- `erase_all_if(pred)`: copy the current vector unconditionally, then
`std::remove_if` + `erase` on the copy, publish; returns the number removed.
The copy is made even when nothing matches. -/
def erase_all_if (st : copy_on_write_vector α) (p : α → Bool) :
    copy_on_write_vector α × Nat :=
  (alloc st (mkCopy ((elems st).filter (fun x => ! p x))),
   (elems st).countP p)

/-- The scan of `replace_all`: each element equal to `o` is overwritten with
`n`; the match count is accumulated. -/
def replaceAllLoop [DecidableEq α] (o n : α) : List α → List α × Nat
  | [] => ([], 0)
  | x :: xs =>
    let r := replaceAllLoop o n xs
    if x = o then (n :: r.1, r.2 + 1) else (x :: r.1, r.2)

/-- `replace_all(old, new)`: lazy copy-on-first-match scan; every element
equal to `old` is overwritten with `new` in the copy; returns the match
count.  When nothing matches, no copy is made and the state (in particular
the current buffer identity) is unchanged. -/
def replace_all [DecidableEq α] (st : copy_on_write_vector α) (o n : α) :
    copy_on_write_vector α × Nat :=
  let r := replaceAllLoop o n (elems st)
  if r.2 = 0 then (st, 0) else (alloc st (mkCopy r.1), r.2)

/-- The scan of `replace_all_if`: each element satisfying `p` is overwritten
with `v`; the match count is accumulated. -/
def replaceAllIfLoop (p : α → Bool) (v : α) : List α → List α × Nat
  | [] => ([], 0)
  | x :: xs =>
    let r := replaceAllIfLoop p v xs
    if p x then (v :: r.1, r.2 + 1) else (x :: r.1, r.2)

/-- `replace_all_if(pred, value)`: lazy copy-on-first-match scan, like
`replace_all` but with a predicate. -/
def replace_all_if (st : copy_on_write_vector α) (p : α → Bool) (v : α) :
    copy_on_write_vector α × Nat :=
  let r := replaceAllIfLoop p v (elems st)
  if r.2 = 0 then (st, 0) else (alloc st (mkCopy r.1), r.2)

/-- `push_back_if_absent(value)`: `std::find` on the current buffer; if
present return `false` without copying; otherwise copy, append, publish,
return `true`. -/
def push_back_if_absent [DecidableEq α] (st : copy_on_write_vector α) (v : α) :
    copy_on_write_vector α × Bool :=
  if v ∈ elems st then (st, false)
  else (alloc st (mkCopy (elems st ++ [v])), true)

/-- The scan of the ranged `push_back_if_absent`: each input element is
checked against the growing current contents `cur` (which includes elements
appended earlier in the same call) and appended when absent. -/
def pbiaLoop [DecidableEq α] (cur : List α) : List α → List α × Nat
  | [] => (cur, 0)
  | x :: xs =>
    if x ∈ cur then pbiaLoop cur xs
    else
      let r := pbiaLoop (cur ++ [x]) xs
      (r.1, r.2 + 1)

/-- Ranged `push_back_if_absent(first, last)`: lazy copy on the first absent
element, then later absence checks run against the growing copy; returns the
number of elements appended.  When every input is already present, no copy is
made and the state is unchanged. -/
def push_back_if_absent_range [DecidableEq α] (st : copy_on_write_vector α)
    (l : List α) : copy_on_write_vector α × Nat :=
  let r := pbiaLoop (elems st) l
  if r.2 = 0 then (st, 0) else (alloc st (mkCopy r.1), r.2)

/-- `swap(other)`: copy both current vectors, swap the copies, publish each
copy into its own container. -/
def swap (a b : copy_on_write_vector α) :
    copy_on_write_vector α × copy_on_write_vector α :=
  (alloc a (mkCopy (elems b)), alloc b (mkCopy (elems a)))

/-- One mutating operation on the container, for reasoning about arbitrary
sequences of mutations. -/
inductive Mut (α : Type) where
  | pushBack (v : α)
  | insertAt (i : Nat) (v : α)
  | eraseAt (i : Nat)
  | replaceAt (i : Nat) (v : α)
  | eraseRange (i j : Nat)
  | assignOp (l : List α)
  | clearOp
  | sortOp
  | popBack
  | eraseVal (v : α)
  | eraseIfOp (p : α → Bool)
  | eraseAllVal (v : α)
  | eraseAllIfOp (p : α → Bool)
  | replaceAllVal (o n : α)
  | replaceAllIfOp (p : α → Bool) (v : α)
  | pbiaVal (v : α)
  | pbiaRange (l : List α)

/-- Apply one mutator; `none` when the underlying C++ call is undefined
behaviour for this input. -/
def applyMut [DecidableEq α] [LinearOrder α] :
    Mut α → copy_on_write_vector α → Option (copy_on_write_vector α)
  | .pushBack v, st => some (push_back st v)
  | .insertAt i v, st => insert_at st i v
  | .eraseAt i, st => erase_at st i
  | .replaceAt i v, st => replace_at st i v
  | .eraseRange i j, st => erase_range st i j
  | .assignOp l, st => some (assign st l)
  | .clearOp, st => some (clear st)
  | .sortOp, st => some (sort st)
  | .popBack, st => pop_back st
  | .eraseVal v, st => some (erase st v).1
  | .eraseIfOp p, st => some (erase_if st p).1
  | .eraseAllVal v, st => some (erase_all st v).1
  | .eraseAllIfOp p, st => some (erase_all_if st p).1
  | .replaceAllVal o n, st => some (replace_all st o n).1
  | .replaceAllIfOp p v, st => some (replace_all_if st p v).1
  | .pbiaVal v, st => some (push_back_if_absent st v).1
  | .pbiaRange l, st => some (push_back_if_absent_range st l).1

/-- Apply a sequence of mutators left to right. -/
def applyMuts [DecidableEq α] [LinearOrder α] :
    List (Mut α) → copy_on_write_vector α → Option (copy_on_write_vector α)
  | [], st => some st
  | m :: ms, st => (applyMut m st).bind (applyMuts ms)

theorem buf_alloc (st : copy_on_write_vector α) (b : Buffer α) :
    buf (alloc st b) = b := by
  simp [buf, alloc, List.getD, List.getElem?_concat_length]

theorem elems_alloc (st : copy_on_write_vector α) (b : Buffer α) :
    elems (alloc st b) = b.elems := by
  simp [elems, buf_alloc]

theorem heap_alloc (st : copy_on_write_vector α) (b : Buffer α) :
    (alloc st b).heap = st.heap ++ [b] := rfl

/-- Every mutator either leaves the state untouched or appends freshly built
vector objects to the heap; it never overwrites an already-allocated buffer. -/
theorem applyMut_heapExt [DecidableEq α] [LinearOrder α] {m : Mut α}
    {st st' : copy_on_write_vector α} (h : applyMut m st = some st') :
    ∃ tl, st'.heap = st.heap ++ tl := by
  have hid : st.heap = st.heap ++ [] := (List.append_nil _).symm
  cases m <;>
    simp only [applyMut, push_back, insert_at, erase_at, replace_at, erase_range,
      assign, clear, sort, pop_back, erase, erase_if, erase_all, erase_all_if,
      replace_all, replace_all_if, push_back_if_absent, push_back_if_absent_range,
      Option.some.injEq] at h <;>
    first
      | (subst h; exact ⟨_, heap_alloc st _⟩)
      | (split at h <;>
          first
            | (cases h; exact ⟨_, heap_alloc st _⟩)
            | (cases h; exact ⟨[], hid⟩)
            | exact absurd h (by simp))

theorem applyMuts_heapExt [DecidableEq α] [LinearOrder α] {ms : List (Mut α)}
    {st st' : copy_on_write_vector α} (h : applyMuts ms st = some st') :
    ∃ tl, st'.heap = st.heap ++ tl := by
  induction ms generalizing st with
  | nil =>
      cases h
      exact ⟨[], (List.append_nil _).symm⟩
  | cons m ms ih =>
      simp only [applyMuts, Option.bind_eq_some] at h
      obtain ⟨st1, h1, h2⟩ := h
      obtain ⟨tl1, e1⟩ := applyMut_heapExt h1
      obtain ⟨tl2, e2⟩ := ih h2
      exact ⟨tl1 ++ tl2, by rw [e2, e1, List.append_assoc]⟩

/-- C1: Snapshot isolation.  For every snapshot obtained via `lock()` from a
container whose current buffer holds the sequence `elems st` (of length
`size st`), and for every subsequent sequence of mutating operations that the
container executes (push_back, insert_at, erase_at, assign, clear, sort, the
erase/replace families, ...), the snapshot's observed buffer still holds
exactly the original sequence and the original size: mutators only publish
fresh buffers and never write an already-allocated one. -/
theorem snapshot_isolation [DecidableEq α] [LinearOrder α] (ms : List (Mut α))
    (st st' : copy_on_write_vector α) (hcur : lock st < st.heap.length)
    (h : applyMuts ms st = some st') :
    (snapObs st' (lock st)).map Buffer.elems = some (elems st) ∧
    (snapObs st' (lock st)).map (fun b => b.elems.length) = some (size st) := by
  obtain ⟨tl, htl⟩ := applyMuts_heapExt h
  have hcur' : st.current < st.heap.length := hcur
  have hbuf : st.heap[lock st]? = some (buf st) := by
    simp [buf, lock, List.getD_eq_getElem?_getD, List.getElem?_eq_getElem hcur']
  have hobs : snapObs st' (lock st) = some (buf st) := by
    rw [snapObs, htl, List.getElem?_append_left hcur, hbuf]
  simp [hobs, elems, size]

/-- Initial state for the spec's concrete snapshot scenario: one buffer
holding [2,3,5], currently published. -/
def stC1 : copy_on_write_vector Int := ⟨[⟨[2, 3, 5], 3⟩], 0⟩

/-- The spec scenario's mutations: push_back(7) three times. -/
def msC1 : List (Mut Int) := [.pushBack 7, .pushBack 7, .pushBack 7]

/-- The state after the three push_backs: three fresh buffers were published;
the snapshot's buffer (identity 0) is physically intact. -/
def stC1' : copy_on_write_vector Int :=
  ⟨[⟨[2, 3, 5], 3⟩, ⟨[2, 3, 5, 7], 4⟩, ⟨[2, 3, 5, 7, 7], 5⟩,
    ⟨[2, 3, 5, 7, 7, 7], 6⟩], 3⟩

/-- Witness for C1: the snapshot acquired on [2,3,5] still observes [2,3,5]
(size 3) after three push_back(7) calls, while the container reached size 6. -/
theorem snapshot_isolation_witness :
    (snapObs stC1' (lock stC1)).map Buffer.elems = some (elems stC1) ∧
    (snapObs stC1' (lock stC1)).map (fun b => b.elems.length) = some (size stC1) :=
  snapshot_isolation msC1 stC1 stC1' (by decide) (by decide)

/-- C2 counterexample: on the empty container, `insert_at(1, 7)` is called
with an out-of-range index (1 > size 0).  The code performs no bounds check
and signals no error: it unconditionally computes `begin() + index` and
inserts there, which is undefined behaviour — the call has no defined
outcome (`none`); in particular it does not return with the container's
current buffer reference unchanged, as the claim requires. -/
theorem insert_at_oob_cex :
    insert_at (⟨[⟨[], 0⟩], 0⟩ : copy_on_write_vector Int) 1 7 = none ∧
    insert_at (⟨[⟨[], 0⟩], 0⟩ : copy_on_write_vector Int) 1 7 ≠
      some ⟨[⟨[], 0⟩], 0⟩ := by
  decide

/-- C2 (amended): the index-based mutators perform no bounds check and signal
no error; a call with an out-of-range index (index > size for insert_at,
index ≥ size for replace_at/erase_at, first > last or last > size for
erase_range) is undefined behaviour — it has no defined result at all —
while every in-range call has a defined result. -/
theorem index_mutators_unchecked (st : copy_on_write_vector α)
    (i j : Nat) (v : α) :
    (insert_at st i v = none ↔ size st < i) ∧
    (erase_at st i = none ↔ size st ≤ i) ∧
    (replace_at st i v = none ↔ size st ≤ i) ∧
    (erase_range st i j = none ↔ ¬ (i ≤ j ∧ j ≤ size st)) := by
  refine ⟨?_, ?_, ?_, ?_⟩ <;>
    · simp only [insert_at, erase_at, replace_at, erase_range, ite_eq_right_iff,
        reduceCtorEq, imp_false]
      try omega

/-- Container used by the C3 scenario: a single buffer holding [1,3,3,5]. -/
def stC3 : copy_on_write_vector Int := ⟨[⟨[1, 3, 3, 5], 4⟩], 0⟩

/-- C3 counterexample: `erase_if` (the function the claim names) erases only
the FIRST element matching the predicate and returns a boolean: on [1,3,3,5]
with the predicate matching 3 it produces [1,3,5] — not [1,5] — and returns
`true`, not the count 2. -/
theorem erase_if_first_only_cex :
    elems (erase_if stC3 (fun x => decide (x = 3))).1 = [1, 3, 5] ∧
    ([1, 3, 5] : List Int) ≠ [1, 5] ∧
    (erase_if stC3 (fun x => decide (x = 3))).2 = true := by
  decide

/-- C3 (amended): the stated scenario holds for `erase_all_if`, the bulk
variant: on [1,3,3,5] with a predicate matching elements equal to 3 it leaves
the container holding [1,5] and returns the count 2; the singular `erase_if`
erases only the first match, yielding [1,3,5], and returns `true`. -/
theorem erase_all_if_scenario :
    elems (erase_all_if stC3 (fun x => decide (x = 3))).1 = [1, 5] ∧
    (erase_all_if stC3 (fun x => decide (x = 3))).2 = 2 ∧
    elems (erase_if stC3 (fun x => decide (x = 3))).1 = [1, 3, 5] ∧
    (erase_if stC3 (fun x => decide (x = 3))).2 = true := by
  decide

theorem replaceAllLoop_eq [DecidableEq α] (o n : α) (l : List α) :
    replaceAllLoop o n l =
      (l.map (fun x => if x = o then n else x),
       l.countP (fun x => decide (x = o))) := by
  induction l with
  | nil => rfl
  | cons x xs ih =>
      simp only [replaceAllLoop, ih, List.map_cons, List.countP_cons]
      by_cases hx : x = o <;> simp [hx]

theorem replaceAllIfLoop_eq (p : α → Bool) (v : α) (l : List α) :
    replaceAllIfLoop p v l =
      (l.map (fun x => if p x then v else x), l.countP p) := by
  induction l with
  | nil => rfl
  | cons x xs ih =>
      simp only [replaceAllIfLoop, ih, List.map_cons, List.countP_cons]
      by_cases hx : p x <;> simp [hx]

theorem pbiaLoop_all_mem [DecidableEq α] (cur : List α) (l : List α)
    (h : ∀ x ∈ l, x ∈ cur) : pbiaLoop cur l = (cur, 0) := by
  induction l with
  | nil => rfl
  | cons x xs ih =>
      have hx : x ∈ cur := h x (List.mem_cons_self x xs)
      simp only [pbiaLoop, if_pos hx]
      exact ih (fun y hy => h y (List.mem_cons_of_mem x hy))

/-- Container used by the C4 counterexample: a single buffer holding [1,2]. -/
def stC4 : copy_on_write_vector Int := ⟨[⟨[1, 2], 2⟩], 0⟩

/-- C4 counterexample: `erase_all` with the absent value 9 on [1,2] affects
zero elements and returns 0, yet it still materializes a copy of the buffer —
the current buffer identity moves from 0 to the freshly allocated 1 — because
the code copies unconditionally before scanning. -/
theorem erase_all_eager_copy_cex :
    (erase_all stC4 (9 : Int)).2 = 0 ∧
    elems (erase_all stC4 9).1 = [1, 2] ∧
    (erase_all stC4 9).1.current = 1 ∧ stC4.current = 0 ∧
    (erase_all stC4 9).1.heap.length = 2 ∧ stC4.heap.length = 1 := by
  decide

/-- C4 (amended): `replace_all`, `replace_all_if` and the ranged
`push_back_if_absent` copy lazily: when zero elements qualify they return 0
and leave the state — in particular the current buffer identity — unchanged.
`erase_all` and `erase_all_if`, however, materialize a copy unconditionally:
with zero qualifying elements they still return 0 and preserve the element
sequence, but the container ends up referencing a freshly allocated buffer. -/
theorem bulk_noop_frame [DecidableEq α] (st : copy_on_write_vector α)
    (o n v : α) (p : α → Bool) (l : List α)
    (ho : o ∉ elems st) (hp : ∀ x ∈ elems st, p x = false)
    (hv : v ∉ elems st) (hl : ∀ x ∈ l, x ∈ elems st) :
    replace_all st o n = (st, 0) ∧
    replace_all_if st p n = (st, 0) ∧
    push_back_if_absent_range st l = (st, 0) ∧
    erase_all st v = (alloc st (mkCopy (elems st)), 0) ∧
    erase_all_if st p = (alloc st (mkCopy (elems st)), 0) := by
  have ho' : (elems st).countP (fun x => decide (x = o)) = 0 :=
    List.countP_eq_zero.mpr (fun a ha => by
      simp only [decide_eq_true_eq]
      rintro rfl
      exact ho ha)
  have hv' : (elems st).countP (fun x => decide (x = v)) = 0 :=
    List.countP_eq_zero.mpr (fun a ha => by
      simp only [decide_eq_true_eq]
      rintro rfl
      exact hv ha)
  have hp' : (elems st).countP p = 0 :=
    List.countP_eq_zero.mpr (fun a ha => by simp [hp a ha])
  have hfv : (elems st).filter (fun x => decide (x ≠ v)) = elems st :=
    List.filter_eq_self.mpr (fun a ha => by
      simp only [decide_eq_true_eq]
      rintro rfl
      exact hv ha)
  have hfp : (elems st).filter (fun x => ! p x) = elems st :=
    List.filter_eq_self.mpr (fun a ha => by simp [hp a ha])
  refine ⟨?_, ?_, ?_, ?_, ?_⟩
  · simp [replace_all, replaceAllLoop_eq, ho']
  · simp [replace_all_if, replaceAllIfLoop_eq, hp']
  · simp [push_back_if_absent_range, pbiaLoop_all_mem (elems st) l hl]
  · simp only [erase_all, hfv, hv']
  · simp only [erase_all_if, hfp, hp']

/-- Witness for C4 (amended), on [1,2] with value 9 absent, a predicate that
matches nothing, and the input range [1] fully present. -/
theorem bulk_noop_frame_witness :
    replace_all stC4 9 0 = (stC4, 0) ∧
    replace_all_if stC4 (fun x => decide (x = 9)) 0 = (stC4, 0) ∧
    push_back_if_absent_range stC4 [1] = (stC4, 0) ∧
    erase_all stC4 9 = (alloc stC4 (mkCopy (elems stC4)), 0) ∧
    erase_all_if stC4 (fun x => decide (x = 9)) =
      (alloc stC4 (mkCopy (elems stC4)), 0) :=
  bulk_noop_frame stC4 9 0 9 (fun x => decide (x = 9)) [1]
    (by decide) (by decide) (by decide) (by decide)

/-- C5: `replace_all(old, new)` returns exactly the number of elements equal
to `old` before the call, and afterwards no element of the container equals
`old` unless `new = old`. -/
theorem replace_all_count [DecidableEq α] (st : copy_on_write_vector α)
    (o n : α) :
    (replace_all st o n).2 = (elems st).countP (fun x => decide (x = o)) ∧
    (n ≠ o → o ∉ elems (replace_all st o n).1) := by
  constructor
  · simp only [replace_all, replaceAllLoop_eq]
    split
    · next h => exact h.symm
    · rfl
  · intro hne hmem
    by_cases h0 : (elems st).countP (fun x => decide (x = o)) = 0
    · have hres : (replace_all st o n).1 = st := by
        simp [replace_all, replaceAllLoop_eq, h0]
      rw [hres] at hmem
      have := List.countP_eq_zero.mp h0 o hmem
      simp at this
    · have hres : (replace_all st o n).1 =
          alloc st (mkCopy ((elems st).map (fun x => if x = o then n else x))) := by
        simp [replace_all, replaceAllLoop_eq, h0]
      rw [hres, elems_alloc] at hmem
      obtain ⟨y, hy, hfy⟩ := List.mem_map.mp hmem
      by_cases hyo : y = o
      · rw [if_pos hyo] at hfy
        exact hne hfy
      · rw [if_neg hyo] at hfy
        exact hyo hfy

/-- Witness for C5 on [1,3,3,5] with old = 3, new = 7: the returned count is
2 and no element 3 remains. -/
theorem replace_all_count_witness :
    (replace_all stC3 3 7).2 = 2 ∧ (3 : Int) ∉ elems (replace_all stC3 3 7).1 :=
  ⟨by decide, (replace_all_count stC3 3 7).2 (by decide)⟩

/-- C6: idempotence of `push_back_if_absent` — calling it twice in succession
with the same value leaves the second call returning `false` and changing
nothing, so the size grows by at most one across the two calls. -/
theorem push_back_if_absent_idem [DecidableEq α] (st : copy_on_write_vector α)
    (v : α) :
    (push_back_if_absent (push_back_if_absent st v).1 v).2 = false ∧
    (push_back_if_absent (push_back_if_absent st v).1 v).1 =
      (push_back_if_absent st v).1 ∧
    size (push_back_if_absent (push_back_if_absent st v).1 v).1 ≤ size st + 1 := by
  by_cases h : v ∈ elems st
  · simp [push_back_if_absent, h, size]
  · have h1 : (push_back_if_absent st v).1 = alloc st (mkCopy (elems st ++ [v])) := by
      simp [push_back_if_absent, h]
    have h2 : v ∈ elems (push_back_if_absent st v).1 := by
      rw [h1, elems_alloc]
      simp [mkCopy]
    rw [h1] at h2 ⊢
    simp [push_back_if_absent, h2, size, elems_alloc, mkCopy]

/-- C7: no-op purity of `erase(value)` — on an absent value the call returns
`false` and the state is returned untouched: same heap, same current buffer
identity, no copy allocated. -/
theorem erase_absent_noop [DecidableEq α] (st : copy_on_write_vector α)
    (v : α) (h : v ∉ elems st) : erase st v = (st, false) := by
  simp [erase, h]

/-- Witness for C7: erasing the absent value 9 from [1,2] returns `false` and
the identical state. -/
theorem erase_absent_noop_witness : erase stC4 (9 : Int) = (stC4, false) :=
  erase_absent_noop stC4 9 (by decide)

/-- C8: swap correctness — after `A.swap(B)`, A's element sequence is the old
B's and B's element sequence is the old A's. -/
theorem swap_exchanges (a b : copy_on_write_vector α) :
    elems (swap a b).1 = elems b ∧ elems (swap a b).2 = elems a := by
  constructor <;> simp [swap, elems_alloc, mkCopy]

/-- C9: bounds-checked read access — `at(n)` on a snapshot (buffer) or on the
container signals `std::out_of_range` (modeled `none`) exactly when `n ≥
size` and returns the n-th element when `n < size`.  `at` is a `const`
accessor: no state is touched either way. -/
theorem at_bounds (b : Buffer α) (st : copy_on_write_vector α) (n : Nat) :
    (b.elems.length ≤ n → snapshotAt b n = none) ∧
    (∀ hn : n < b.elems.length, snapshotAt b n = some (b.elems.get ⟨n, hn⟩)) ∧
    (size st ≤ n → at_idx st n = none) ∧
    (∀ hn : n < size st, at_idx st n = some ((elems st).get ⟨n, hn⟩)) := by
  refine ⟨?_, ?_, ?_, ?_⟩
  · intro h
    simp [snapshotAt, List.getElem?_eq_none h]
  · intro hn
    simp [snapshotAt, List.getElem?_eq_getElem hn, List.get_eq_getElem]
  · intro h
    have h' : (buf st).elems.length ≤ n := h
    simp [at_idx, snapshotAt, List.getElem?_eq_none h']
  · intro hn
    have hn' : n < (buf st).elems.length := hn
    simp [at_idx, snapshotAt, elems, List.getElem?_eq_getElem hn',
      List.get_eq_getElem]

/-- Witness for C9: on the two-element buffer [4,5], `at(7)` signals
out-of-range and `at(1)` returns 5. -/
theorem at_bounds_witness :
    snapshotAt (⟨[4, 5], 2⟩ : Buffer Int) 7 = none ∧
    at_idx (⟨[⟨[4, 5], 2⟩], 0⟩ : copy_on_write_vector Int) 1 = some 5 := by
  constructor
  · exact (at_bounds ⟨[4, 5], 2⟩ ⟨[⟨[4, 5], 2⟩], 0⟩ 7).1 (by decide)
  · exact (at_bounds ⟨[4, 5], 2⟩ ⟨[⟨[4, 5], 2⟩], 0⟩ 1).2.2.2 (by decide)

/-- C10: `clear()` publishes a freshly allocated empty buffer whose capacity
was set by reserving the old buffer's capacity: the new size is 0 and the new
capacity is at least the old one (allocated capacity is retained, the
elements are not copied). -/
theorem clear_retains_capacity (st : copy_on_write_vector α) :
    size (clear st) = 0 ∧ elems (clear st) = [] ∧
    (buf st).cap ≤ (buf (clear st)).cap ∧
    (clear st).current = st.heap.length := by
  refine ⟨?_, ?_, ?_, rfl⟩ <;> simp [clear, size, elems_alloc, buf_alloc]

end copy_on_write_vector
